import Mathlib

set_option maxRecDepth 8000

/-!
Verification development for the ConfigQuery repository.

The definitions below are a shallow embedding of the Python sources:
`qa_tool.py` (query expansion, domain-keyword test, retrieval routing and
the `get_answer` pipeline), `conversation.py` (bounded conversation
history), `prompt_templates.py` (prompt assembly) and the configuration
default `MAX_CONVERSATION_HISTORY = 10` from `config.py`.

Modelling conventions:
* Python strings are Lean `String`s; character-level operations
  (`str.lower`, `str.split`, `in`-containment, `str.strip`, the
  `re.sub(r'[^\w\s]', '', w)` cleaning) are modelled on `List Char`.
  `str.lower` is modelled with `Char.toLower` (ASCII case mapping, the
  relevant range for this repository's data).
* Similarity scores (Python floats compared against 0.2 / 0.3 / 0.5)
  are modelled as exact rationals `Rat`.
* The external collaborators (embedding model + ChromaDB index, OpenAI
  completion) are oracles in an `Env`; a raised exception is `Except.error`.
* `get_answer` returns the response, the new conversation history of the
  (single) conversation instance it touched, and the list of external
  calls it performed.
-/

/-- Whitespace test used for the model of Python `str.split()` and
`str.strip()` (Python splits on any whitespace). -/
def wsB (c : Char) : Bool := c.isWhitespace

/-- Splitting worker: `cur` is the word currently being read (in order).
Emits `cur` when a whitespace character or the end of input is reached. -/
def pySplitGo (cur : List Char) : List Char → List (List Char)
  | [] => if cur = [] then [] else [cur]
  | c :: cs' =>
    if wsB c then
      (if cur = [] then pySplitGo [] cs' else cur :: pySplitGo [] cs')
    else pySplitGo (cur ++ [c]) cs'

/-- Model of Python `str.split()` on a character list: split on runs of
whitespace, dropping empty chunks. -/
def pySplitL (cs : List Char) : List (List Char) := pySplitGo [] cs

/-- Model of `re.sub(r'[^\w\s]', '', word)` from
`expand_query_with_synonyms` (`qa_tool.py` line 81): keep word characters
(alphanumeric or underscore) and whitespace, drop the rest.  `\w` is
modelled on its ASCII range. -/
def stripPunct (cs : List Char) : List Char :=
  cs.filter (fun c => c.isAlphanum || c == '_' || c.isWhitespace)

/-- Model of Python `str.lower()` on a character list. -/
def lowerL (cs : List Char) : List Char := cs.map Char.toLower

/-- Model of `" ".join(words)` on character lists. -/
def joinSp : List (List Char) → List Char
  | [] => []
  | [x] => x
  | x :: y :: ys => x ++ ' ' :: joinSp (y :: ys)

/-- Model of Python substring containment `sub in hay` on character
lists. -/
def isSubL (sub hay : List Char) : Bool :=
  hay.tails.any (fun t => sub.isPrefixOf t)

/-- Model of Python `str.strip()`: remove leading and trailing
whitespace. -/
def stripEndsL (cs : List Char) : List Char :=
  ((cs.dropWhile wsB).reverse.dropWhile wsB).reverse

/-- Model of Python `str.strip()` on `String`. -/
def pyStrip (s : String) : String := String.mk (stripEndsL s.data)

/-- First-occurrence de-duplication worker: `seen` holds the elements
already kept.  Models `list(dict.fromkeys(xs))`. -/
def dedupeGo (seen : List (List Char)) : List (List Char) → List (List Char)
  | [] => []
  | x :: xs => if x ∈ seen then dedupeGo seen xs else x :: dedupeGo (x :: seen) xs

/-- Model of `list(dict.fromkeys(xs))` (`qa_tool.py` line 89): remove
duplicates keeping the first occurrence of each element. -/
def dedupeFirst (xs : List (List Char)) : List (List Char) := dedupeGo [] xs

/-- The `SYNONYM_MAPPING` dictionary of `qa_tool.py` (lines 26-52),
verbatim. -/
def SYNONYM_MAPPING : List (String × List String) :=
  [("reset", ["change", "update", "modify", "alter", "edit", "fix"]),
   ("change", ["reset", "update", "modify", "alter", "edit", "revise"]),
   ("add", ["create", "generate", "make", "setup", "configure", "establish"]),
   ("remove", ["delete", "disable", "revoke", "terminate", "eliminate"]),
   ("install", ["setup", "deploy", "implement", "add", "configure"]),
   ("password", ["credentials", "login", "authentication", "passcode", "pwd"]),
   ("account", ["user", "profile", "login", "id", "identity"]),
   ("config", ["configuration", "setting", "option", "parameter", "preference"]),
   ("settings", ["options", "preferences", "configurations", "parameters", "setup"]),
   ("ms", ["microsoft", "office365", "azure", "windows", "o365"]),
   ("microsoft", ["ms", "office365", "windows", "o365", "msft"]),
   ("login", ["sign in", "log in", "access", "authenticate", "credentials"]),
   ("vpn", ["remote access", "remote connection", "virtual private network"]),
   ("email", ["mail", "outlook", "message", "inbox"]),
   ("printer", ["printing", "print", "scanner", "copier"]),
   ("network", ["internet", "connection", "wifi", "ethernet", "lan"]),
   ("file", ["document", "folder", "directory", "data"]),
   ("permission", ["access", "right", "privilege", "authorization"])]

/-- The synonym table at character-list level. -/
def synMapL : List (List Char × List (List Char)) :=
  SYNONYM_MAPPING.map (fun p => (p.1.data, p.2.map String.data))

/-- Dictionary lookup `SYNONYM_MAPPING[w]` combined with the membership
test `w in SYNONYM_MAPPING`: returns the synonym list for key `w`, or
`[]` when `w` is not a key (no value in the table is empty). -/
def lookupIn : List (List Char × List (List Char)) → List Char → List (List Char)
  | [], _ => []
  | (k, ss) :: rest, w => if w = k then ss else lookupIn rest w

/-- The synonyms appended by the `for word in words` loop of
`expand_query_with_synonyms` (`qa_tool.py` lines 79-86), in loop order. -/
def synExt (words : List (List Char)) : List (List Char) :=
  words.foldr (fun w acc => lookupIn synMapL (stripPunct w) ++ acc) []

/-- The token list `query.lower().split()` of a query. -/
def queryWords (query : String) : List (List Char) := pySplitL (lowerL query.data)

/-- Embedding of `expand_query_with_synonyms` (`qa_tool.py` lines 66-94):
lower-case and whitespace-split the query, append the synonyms of every
punctuation-cleaned token that is a mapped key, de-duplicate keeping first
occurrences, and re-join with single spaces. -/
def expand_query_with_synonyms (query : String) : String :=
  String.mk (joinSp (dedupeFirst (queryWords query ++ synExt (queryWords query))))

/-- The `IT_KEYWORDS` list of `qa_tool.py` (lines 55-64), verbatim. -/
def IT_KEYWORDS : List String :=
  ["password", "reset", "account", "login", "email", "server", "network",
   "computer", "laptop", "desktop", "vpn", "wifi", "software", "hardware",
   "install", "update", "domain", "active directory", "admin", "administrator",
   "config", "configuration", "setup", "system", "drive", "database", "access",
   "permission", "user", "printer", "device", "authentication", "security",
   "microsoft", "ms", "windows", "office", "azure", "sharepoint", "onedrive",
   "app", "application", "program", "browser", "website", "portal", "cloud",
   "file", "folder", "document", "data", "backup", "restore", "recover"]

/-- Embedding of `is_it_related` (`qa_tool.py` lines 96-110): True iff
some IT keyword occurs as a substring of the lower-cased query. -/
def is_it_related (query : String) : Bool :=
  IT_KEYWORDS.any (fun k => isSubL k.data (lowerL query.data))

/-- The default `MAX_CONVERSATION_HISTORY` from `config.py` (line 22). -/
def MAX_CONVERSATION_HISTORY : Nat := 10

/-- Decidable equality for `Except`, used to evaluate the routing model
on concrete inputs. -/
instance instDecEqExcept {ε α : Type} [DecidableEq ε] [DecidableEq α] :
    DecidableEq (Except ε α) := fun x y =>
  match x, y with
  | .error a, .error b =>
    if h : a = b then .isTrue (h ▸ rfl) else .isFalse (fun hc => h (Except.error.inj hc))
  | .ok a, .ok b =>
    if h : a = b then .isTrue (h ▸ rfl) else .isFalse (fun hc => h (Except.ok.inj hc))
  | .error _, .ok _ => .isFalse (fun hc => Except.noConfusion hc)
  | .ok _, .error _ => .isFalse (fun hc => Except.noConfusion hc)

/-- A chat message: a Python dict with a `role` and a `content` field. -/
structure Message where
  role : String
  content : String
deriving DecidableEq, Repr

/-- Embedding of `Conversation._trim_history` (`conversation.py` lines
55-62): when the history exceeds `maxH`, drop the `length - maxH` oldest
messages. -/
def trim_history (maxH : Nat) (msgs : List Message) : List Message :=
  if msgs.length > maxH then msgs.drop (msgs.length - maxH) else msgs

/-- Embedding of `Conversation.add_user_message` /
`add_assistant_message` (`conversation.py` lines 25-53): append the
message, then trim. -/
def add_message (maxH : Nat) (msgs : List Message) (m : Message) : List Message :=
  trim_history maxH (msgs ++ [m])

/-- A sequence of appends to a fresh-or-existing history, in order. -/
def pushAll (maxH : Nat) (hist : List Message) (ms : List Message) : List Message :=
  ms.foldl (add_message maxH) hist

/-- The four prompt-strategy tiers selected by `get_answer`
(`qa_tool.py` lines 201-231). -/
inductive PromptStrategy where
  | highConfidence : PromptStrategy
  | mediumConfidence : PromptStrategy
  | lowConfidence (itRelated : Bool) : PromptStrategy
  | fallback (itRelated : Bool) : PromptStrategy
deriving DecidableEq, Repr

/-- Model of Python `max(xs)` on a rational list: raises on an empty
list. -/
def pyMax : List Rat → Except Unit Rat
  | [] => .error ()
  | x :: xs => .ok (xs.foldl max x)

/-- The minimum-relevance threshold of `get_answer` (`qa_tool.py` line
182). -/
def minimumThreshold : Rat := mkRat 1 5

/-- The HIGH-confidence cut point (`qa_tool.py` line 194). -/
def highCut : Rat := mkRat 1 2

/-- The MEDIUM-confidence cut point (`qa_tool.py` line 196). -/
def mediumCut : Rat := mkRat 3 10

/-- Embedding of the bucketing loop of `get_answer` (`qa_tool.py` lines
188-199): classify each (document, score) pair into the high / medium /
low lists, preserving order. -/
def bucketize : List (String × Rat) → List String × List String × List String
  | [] => ([], [], [])
  | (d, s) :: rest =>
    let r := bucketize rest
    if s ≥ highCut then (d :: r.1, r.2.1, r.2.2)
    else if s ≥ mediumCut then (r.1, d :: r.2.1, r.2.2)
    else (r.1, r.2.1, d :: r.2.2)

/-- Embedding of steps 2-3 of `get_answer` (`qa_tool.py` lines 179-231):
given the result of `search_configs`, pick the prompt strategy and its
context documents.  `Except.error` models the `ValueError` raised by
`max([])`. -/
def routeCore (query : String) (docs : List String) (scores : List Rat)
    (hasResults : Bool) : Except Unit (PromptStrategy × List String) :=
  if hasResults then
    match pyMax scores with
    | .error e => .error e
    | .ok m =>
      if m ≥ minimumThreshold then
        let b := bucketize (docs.zip scores)
        if b.1 ≠ [] then .ok (.highConfidence, b.1)
        else if b.2.1 ≠ [] then .ok (.mediumConfidence, b.2.1 ++ b.2.2)
        else .ok (.lowConfidence (is_it_related query), b.2.2)
      else .ok (.fallback (is_it_related query), [])
  else .ok (.fallback (is_it_related query), [])

/-- Embedding of the result post-processing of `search_configs`
(`qa_tool.py` lines 134-138): on a non-empty index result pass it
through with `has_results = True`, otherwise return the sentinel
document with score 0 and `has_results = False`. -/
def searchWrap (docs : List String) (dists : List Rat) :
    List String × List Rat × Bool :=
  if docs ≠ [] then (docs, dists, true)
  else (["No relevant configs found."], [(0 : Rat)], false)

/-- The `HIGH_CONFIDENCE_PROMPT` template of `prompt_templates.py`. -/
def HIGH_CONFIDENCE_PROMPT : String :=
  "\nYou are an IT Support Assistant that primarily uses information from the provided context.\n\nWhen responding:\n1. Prioritize information explicitly stated in the CONTEXT section\n2. Present information clearly and in a helpful format\n3. If you need to reference material from the context, do so accurately\n4. Be conversational and friendly in your tone\n5. If the answer isn\x27t completely contained in the context, but you can make a reasonable inference, indicate this with \"Based on the information provided...\"\n\nYou should be accurate, helpful, and clear in your responses.\n"

/-- The `MEDIUM_CONFIDENCE_PROMPT` template of `prompt_templates.py`. -/
def MEDIUM_CONFIDENCE_PROMPT : String :=
  "\nYou are an IT Support Assistant that uses a combination of provided context and professional judgment.\n\nWhen responding:\n1. Use the information in the CONTEXT section as a starting point\n2. You may expand on the context with relevant IT knowledge when appropriate\n3. When adding information beyond what\x27s in the context, indicate this with \"In addition to what\x27s documented...\"\n4. Be clear about what\x27s directly from company documentation versus general knowledge\n5. If you\x27re unsure about specific details, acknowledge this\n\nAim to be helpful while maintaining accuracy about company-specific procedures.\n"

/-- The `LOW_CONFIDENCE_PROMPT` template of `prompt_templates.py`. -/
def LOW_CONFIDENCE_PROMPT : String :=
  "\nYou are an IT Support Assistant that combines limited documentation with general IT knowledge.\n\nWhen responding:\n1. The CONTEXT section contains some potentially relevant information, but it may be incomplete\n2. Begin by mentioning any relevant information from the context\n3. Then supplement with your general IT knowledge, clearly indicating when you\x27re doing so\n4. Use phrases like \"While your documentation mentions X, generally in IT environments...\"\n5. For company-specific details not covered in context, suggest checking with IT or documentation\n\nBalance being helpful with making it clear what information comes from company documentation versus general IT knowledge.\n"

/-- The `FALLBACK_SYSTEM_PROMPT` template of `prompt_templates.py`. -/
def FALLBACK_SYSTEM_PROMPT : String :=
  "\nYou are an IT Support Assistant with general knowledge capabilities.\n\nWhen responding:\n1. Begin your response with \"I don\x27t have specific information about this in my knowledge base, but I can provide a general answer:\"\n2. After this disclaimer, provide a helpful general response using your built-in knowledge\n3. For IT-related questions, provide general best practices\n4. For non-IT questions, provide helpful general information\n5. Be conversational and friendly\n6. If appropriate, suggest that the user could ask their IT department for company-specific details\n\nYour goal is to be as helpful as possible while making it clear when you\x27re providing general knowledge rather than company-specific information.\n"

/-- The fixed sentence substituted for an absent context block
(`prompt_templates.py` line 77). -/
def NO_DOC_SENTENCE : String := "No specific documentation available for this query."

/-- The sentinel document returned by `search_configs` when the index
yields nothing (`qa_tool.py` line 138). -/
def NO_CONFIGS_SENTINEL : String := "No relevant configs found."

/-- The numbering loop of `format_context_from_docs`
(`prompt_templates.py` lines 79-81): `DOCUMENT <n>:` blocks, numbering
from `i`. -/
def numberDocs (i : Nat) : List String → List String
  | [] => []
  | d :: ds => ("DOCUMENT " ++ toString i ++ ":\n" ++ pyStrip d) :: numberDocs (i + 1) ds

/-- Embedding of `format_context_from_docs` (`prompt_templates.py` lines
66-83). -/
def format_context_from_docs (documents : List String) : String :=
  if documents = [] ∨ (documents.length = 1 ∧ documents.head? = some NO_CONFIGS_SENTINEL)
  then NO_DOC_SENTENCE
  else String.intercalate "\n\n" (numberDocs 1 documents)

/-- The trailing history window `conversation_history[-N:]` used by every
prompt creator (`prompt_templates.py` lines 112-116 and analogues),
including the skip on an empty history. -/
def lastWindow (ch : List Message) : List Message :=
  if ch.isEmpty then [] else ch.drop (ch.length - MAX_CONVERSATION_HISTORY)

/-- Embedding of `create_high_confidence_prompt` (`prompt_templates.py`
lines 85-121). -/
def create_high_confidence_prompt (query : String) (documents : List String)
    (ch : List Message) : List Message :=
  ⟨"system", HIGH_CONFIDENCE_PROMPT⟩ ::
  ⟨"system", "CONTEXT:\n" ++ format_context_from_docs documents ++ "\n\nUse this information to answer the user\x27s question."⟩ ::
  (lastWindow ch ++ [⟨"user", query⟩])

/-- Embedding of `create_medium_confidence_prompt`
(`prompt_templates.py` lines 123-159). -/
def create_medium_confidence_prompt (query : String) (documents : List String)
    (ch : List Message) : List Message :=
  ⟨"system", MEDIUM_CONFIDENCE_PROMPT⟩ ::
  ⟨"system", "CONTEXT:\n" ++ format_context_from_docs documents ++ "\n\nUse this information as a starting point, but you may expand with relevant IT knowledge."⟩ ::
  (lastWindow ch ++ [⟨"user", query⟩])

/-- Embedding of `create_low_confidence_prompt` (`prompt_templates.py`
lines 161-206). -/
def create_low_confidence_prompt (query : String) (documents : List String)
    (ch : List Message) (itRelated : Bool) : List Message :=
  ⟨"system", LOW_CONFIDENCE_PROMPT⟩ ::
  ⟨"system", "CONTEXT:\n" ++ format_context_from_docs documents ++
    (if itRelated
     then "\n\nThe above context may be only partially relevant. Use it where applicable, but supplement with general IT knowledge where needed."
     else "\n\nThe above context may have limited relevance. Focus on providing a generally helpful response.")⟩ ::
  (lastWindow ch ++ [⟨"user", query⟩])

/-- Embedding of `create_fallback_prompt` (`prompt_templates.py` lines
208-243). -/
def create_fallback_prompt (query : String) (ch : List Message)
    (itRelated : Bool) : List Message :=
  ⟨"system", FALLBACK_SYSTEM_PROMPT⟩ ::
  ((if itRelated
    then [(⟨"system", "This appears to be an IT-related question. Provide general best practices and advice, but make it clear you\x27re providing general information rather than company-specific procedures."⟩ : Message)]
    else []) ++
   (lastWindow ch ++ [⟨"user", query⟩]))

/-- The prompt-creator dispatch performed by `get_answer` (`qa_tool.py`
lines 201-231): which `create_*_prompt` is called for each strategy. -/
def assembleFor (strat : PromptStrategy) (query : String) (docs : List String)
    (ch : List Message) : List Message :=
  match strat with
  | .highConfidence => create_high_confidence_prompt query docs ch
  | .mediumConfidence => create_medium_confidence_prompt query docs ch
  | .lowConfidence b => create_low_confidence_prompt query docs ch b
  | .fallback b => create_fallback_prompt query ch b

/-- The weather short-circuit word list of `get_answer` (`qa_tool.py`
line 168). -/
def WEATHER_WORDS : List String := ["weather", "temperature", "forecast", "rain", "snow"]

/-- The greeting short-circuit phrase list of `get_answer` (`qa_tool.py`
line 173). -/
def GREETING_PHRASES : List String := ["how are you", "how\x27re you", "how you doing"]

/-- The weather short-circuit test `any(word in query.lower() for word in
[...])` (`qa_tool.py` line 168). -/
def weatherTrigger (query : String) : Bool :=
  WEATHER_WORDS.any (fun w => isSubL w.data (lowerL query.data))

/-- The greeting short-circuit test (`qa_tool.py` line 173). -/
def greetingTrigger (query : String) : Bool :=
  GREETING_PHRASES.any (fun w => isSubL w.data (lowerL query.data))

/-- The canned weather response (`qa_tool.py` line 169). -/
def WEATHER_RESPONSE : String :=
  "I don\x27t have specific information about this in my knowledge base, but I can provide a general answer: I don\x27t have access to current weather data. You would need to check a weather service or app for current conditions."

/-- The canned greeting response (`qa_tool.py` line 174). -/
def GREETING_RESPONSE : String :=
  "I\x27m doing well, thank you for asking! How can I help you today?"

/-- The graceful degradation message of the exception handler
(`qa_tool.py` line 248). -/
def ERROR_RESPONSE : String :=
  "Sorry, I encountered an error while processing your request. Please try again."

/-- External collaborators of one query turn: the embedding model plus
ChromaDB index (taking the expanded query, returning parallel document
and distance lists), and the OpenAI completion call.  `Except.error`
models an exception raised by the collaborator. -/
structure Env where
  queryIndex : String → Except Unit (List String × List Rat)
  complete : List Message → Except Unit String

/-- An external call performed during a turn.  `retrieveCall` covers the
embedding-provider and vector-index work of `search_configs` (which is
also where query expansion happens); `completeCall` is the LLM call. -/
inductive Effect where
  | retrieveCall (expandedQuery : String) : Effect
  | completeCall (messages : List Message) : Effect
deriving DecidableEq, Repr

/-- Embedding of `get_answer` (`qa_tool.py` lines 143-251) for one
conversation instance: returns the response shown to the user, the
conversation history after the turn, and the external calls made.
The `try`/`except` of the source catches any exception raised after the
user message was appended and converts it into `ERROR_RESPONSE` without
touching the history further. -/
def get_answer (env : Env) (query : String) (hist : List Message) :
    String × List Message × List Effect :=
  let hist1 := add_message MAX_CONVERSATION_HISTORY hist ⟨"user", query⟩
  if weatherTrigger query then
    (WEATHER_RESPONSE, add_message MAX_CONVERSATION_HISTORY hist1 ⟨"assistant", WEATHER_RESPONSE⟩, [])
  else if greetingTrigger query then
    (GREETING_RESPONSE, add_message MAX_CONVERSATION_HISTORY hist1 ⟨"assistant", GREETING_RESPONSE⟩, [])
  else
    let eq := expand_query_with_synonyms query
    match env.queryIndex eq with
    | .error _ => (ERROR_RESPONSE, hist1, [.retrieveCall eq])
    | .ok (docs, dists) =>
      let sw := searchWrap docs dists
      match routeCore query sw.1 sw.2.1 sw.2.2 with
      | .error _ => (ERROR_RESPONSE, hist1, [.retrieveCall eq])
      | .ok (strat, ctx) =>
        let msgs := assembleFor strat query ctx hist1
        match env.complete msgs with
        | .error _ => (ERROR_RESPONSE, hist1, [.retrieveCall eq, .completeCall msgs])
        | .ok resp =>
          (resp, add_message MAX_CONVERSATION_HISTORY hist1 ⟨"assistant", resp⟩,
           [.retrieveCall eq, .completeCall msgs])

/-! ## Conversation store lemmas -/

/-- Appending one message to a history within capacity keeps the history
within capacity. -/
theorem add_message_length_le (maxH : Nat) (l : List Message) (m : Message)
    (h : l.length ≤ maxH) : (add_message maxH l m).length ≤ maxH := by
  unfold add_message trim_history
  by_cases hgt : (l ++ [m]).length > maxH
  · rw [if_pos hgt]
    rw [List.length_drop]
    omega
  · rw [if_neg hgt]
    omega

/-- Trimming once more after earlier trimming is the same as trimming the
un-trimmed history: dropping the oldest messages commutes with later
appends. -/
theorem trim_history_absorb (maxH : Nat) (l ms : List Message) :
    trim_history maxH (trim_history maxH l ++ ms) = trim_history maxH (l ++ ms) := by
  unfold trim_history
  by_cases hl : l.length > maxH
  · rw [if_pos hl]
    have hdl : (l.drop (l.length - maxH)).length = maxH := by
      rw [List.length_drop]; omega
    by_cases hms : ms.length = 0
    · have hnil : ms = [] := List.length_eq_zero.mp hms
      subst hnil
      rw [List.append_nil, List.append_nil]
      have hc : ¬ (l.drop (l.length - maxH)).length > maxH := by rw [hdl]; omega
      rw [if_neg hc, if_pos hl]
    · have hc1 : (l.drop (l.length - maxH) ++ ms).length > maxH := by
        rw [List.length_append, hdl]; omega
      have hc2 : (l ++ ms).length > maxH := by rw [List.length_append]; omega
      rw [if_pos hc1, if_pos hc2]
      rw [List.drop_append_eq_append_drop, List.drop_append_eq_append_drop,
          List.drop_drop, List.length_append, List.length_append, hdl]
      have h1 : l.length - maxH + (maxH + ms.length - maxH) = l.length + ms.length - maxH := by
        omega
      have h2 : maxH + ms.length - maxH - maxH = l.length + ms.length - maxH - l.length := by
        omega
      rw [h1, h2]
  · rw [if_neg hl]

/-- Folding a sequence of appends over a history within capacity equals a
single append of everything followed by one trim. -/
theorem pushAll_eq_trim (maxH : Nat) (ms : List Message) :
    ∀ l : List Message, l.length ≤ maxH →
      pushAll maxH l ms = trim_history maxH (l ++ ms) := by
  induction ms with
  | nil =>
    intro l hl
    unfold pushAll trim_history
    simp only [List.foldl_nil, List.append_nil]
    rw [if_neg (by omega)]
  | cons m ms ih =>
    intro l hl
    have step : pushAll maxH l (m :: ms) = pushAll maxH (add_message maxH l m) ms := rfl
    rw [step, ih _ (add_message_length_le maxH l m hl)]
    show trim_history maxH (trim_history maxH (l ++ [m]) ++ ms) = _
    rw [trim_history_absorb]
    rw [List.append_assoc]
    rfl

/-- C6: for a fresh conversation with capacity `max_history`, after `N`
appends with `N > max_history` the stored history is exactly the last
`max_history` appended messages (the `(N - max_history + 1)`-th through
`N`-th, in original order), its length is exactly `max_history`, and
after every intermediate append the stored length is at most
`max_history`. -/
theorem conversation_trimming (maxH : Nat) (msgs : List Message) (k : Nat)
    (h : msgs.length > maxH) :
    pushAll maxH [] msgs = msgs.drop (msgs.length - maxH)
    ∧ (pushAll maxH [] msgs).length = maxH
    ∧ (pushAll maxH [] (msgs.take k)).length ≤ maxH := by
  have hfull : pushAll maxH [] msgs = trim_history maxH msgs := by
    rw [pushAll_eq_trim maxH msgs [] (by simp)]
    rfl
  have hdrop : pushAll maxH [] msgs = msgs.drop (msgs.length - maxH) := by
    rw [hfull]; unfold trim_history; rw [if_pos h]
  refine ⟨hdrop, ?_, ?_⟩
  · rw [hdrop, List.length_drop]; omega
  · rw [pushAll_eq_trim maxH (msgs.take k) [] (by simp)]
    show (trim_history maxH (msgs.take k)).length ≤ maxH
    unfold trim_history
    by_cases hk : (msgs.take k).length > maxH
    · rw [if_pos hk, List.length_drop]; omega
    · rw [if_neg hk]; omega

/-- Witness for `conversation_trimming` at capacity 2 with three
appends. -/
theorem conversation_trimming_witness :
    pushAll 2 [] [⟨"user", "m1"⟩, ⟨"assistant", "m2"⟩, ⟨"user", "m3"⟩]
      = [⟨"assistant", "m2"⟩, ⟨"user", "m3"⟩]
    ∧ (pushAll 2 [] [⟨"user", "m1"⟩, ⟨"assistant", "m2"⟩, ⟨"user", "m3"⟩]).length = 2
    ∧ (pushAll 2 [] ([⟨"user", "m1"⟩, ⟨"assistant", "m2"⟩, ⟨"user", "m3"⟩].take 1)).length ≤ 2 := by
  obtain ⟨h1, h2, h3⟩ :=
    conversation_trimming 2 [⟨"user", "m1"⟩, ⟨"assistant", "m2"⟩, ⟨"user", "m3"⟩] 1 (by decide)
  exact ⟨h1.trans (by decide), h2, h3⟩

/-- C2 (amended): trimming removes messages one at a time from the oldest
end, not in whole user+assistant pairs: an append to a history at
capacity drops exactly the single oldest message. -/
theorem trim_drops_single_oldest (maxH : Nat) (hist : List Message) (m : Message)
    (h1 : 1 ≤ maxH) (h2 : hist.length ≤ maxH) :
    add_message maxH hist m =
      if hist.length < maxH then hist ++ [m] else hist.tail ++ [m] := by
  unfold add_message trim_history
  have hm1 : (hist ++ [m]).length = hist.length + 1 := by simp
  by_cases hlt : hist.length < maxH
  · rw [if_pos hlt, if_neg (by rw [hm1]; omega)]
  · rw [if_neg hlt, if_pos (by rw [hm1]; omega)]
    rw [hm1]
    have hone : hist.length + 1 - maxH = 1 := by omega
    rw [hone]
    cases hist with
    | nil =>
      exfalso
      simp only [List.length_nil] at hlt
      omega
    | cons x xs => rfl

/-- Witness for `trim_drops_single_oldest`: capacity 2, full history,
third append drops only the oldest user message. -/
theorem trim_drops_single_oldest_witness :
    add_message 2 [⟨"user", "u1"⟩, ⟨"assistant", "a1"⟩] ⟨"user", "u2"⟩
      = [⟨"assistant", "a1"⟩, ⟨"user", "u2"⟩] :=
  (trim_drops_single_oldest 2 [⟨"user", "u1"⟩, ⟨"assistant", "a1"⟩] ⟨"user", "u2"⟩
    (by decide) (by decide)).trans (by decide)

/-- Counterexample to C2 as stated: with capacity 2, appending
user, assistant, user leaves a history that begins with an assistant
message whose paired user message was dropped — trimming split the
exchange. -/
theorem trim_splits_exchange_cx :
    pushAll 2 [] [⟨"user", "u1"⟩, ⟨"assistant", "a1"⟩, ⟨"user", "u2"⟩]
      = [⟨"assistant", "a1"⟩, ⟨"user", "u2"⟩]
    ∧ (pushAll 2 [] [⟨"user", "u1"⟩, ⟨"assistant", "a1"⟩, ⟨"user", "u2"⟩]).head?.map Message.role
      = some "assistant" := by decide

/-- C3: evaluating the routing step at an index result with scores
[0.35, 0.1] shows the bucketing loop puts the 0.1-scoring document —
below the 0.2 minimum threshold — into the LOW bucket, and the
MediumConfidence context includes it, contradicting the source comment
"Low confidence but above minimum threshold". -/
theorem medium_context_contains_below_threshold_doc :
    routeCore "q" ["A", "B"] [mkRat 7 20, mkRat 1 10] true
      = .ok (.mediumConfidence, ["A", "B"])
    ∧ mkRat 1 10 < minimumThreshold := by decide

/-! ## Short-circuit and failure behaviour of `get_answer` -/

/-- An environment in which both external collaborators raise. -/
def envFail : Env := ⟨fun _ => .error (), fun _ => .error ()⟩

/-- An environment in which both external collaborators succeed with
fixed answers. -/
def envConst : Env := ⟨fun _ => .ok (["doc"], [mkRat 3 5]), fun _ => .ok "ok"⟩

/-- C9: for every query matching a canned pattern (a weather word or a
greeting phrase, by case-insensitive containment), `get_answer` performs
no embedding, index or LLM call, its result does not depend on the
external collaborators at all, and the response is the fixed canned
response of the matched pattern (weather checked first). -/
theorem short_circuit_bypasses_pipeline (env env' : Env) (query : String)
    (hist : List Message)
    (h : weatherTrigger query = true ∨ greetingTrigger query = true) :
    (get_answer env query hist).2.2 = []
    ∧ get_answer env query hist = get_answer env' query hist
    ∧ (get_answer env query hist).1 =
        (if weatherTrigger query then WEATHER_RESPONSE else GREETING_RESPONSE) := by
  unfold get_answer
  rcases h with h | h
  · simp [h]
  · by_cases hw : weatherTrigger query <;> simp [h, hw]

/-- Witness for `short_circuit_bypasses_pipeline`: scenario B, the query
about the weather fires the short-circuit whatever the collaborators
would do. -/
theorem short_circuit_witness :
    (get_answer envFail "What\x27s the weather?" []).2.2 = []
    ∧ get_answer envFail "What\x27s the weather?" [] = get_answer envConst "What\x27s the weather?" []
    ∧ (get_answer envFail "What\x27s the weather?" []).1 =
        (if weatherTrigger "What\x27s the weather?" then WEATHER_RESPONSE else GREETING_RESPONSE) :=
  short_circuit_bypasses_pipeline envFail envConst "What\x27s the weather?" [] (Or.inl (by decide))

/-- C10: the weather short-circuit is a case-insensitive substring test
over the whole query, so any query whose lower-cased text contains a
weather word anywhere gets the fixed canned weather response, appended
to the history after the user message, with no external call. -/
theorem weather_substring_shortcircuit (env : Env) (query : String)
    (hist : List Message) (h : weatherTrigger query = true) :
    get_answer env query hist =
      (WEATHER_RESPONSE,
       add_message MAX_CONVERSATION_HISTORY
         (add_message MAX_CONVERSATION_HISTORY hist ⟨"user", query⟩)
         ⟨"assistant", WEATHER_RESPONSE⟩,
       []) := by
  unfold get_answer
  simp [h]

/-- Witness for `weather_substring_shortcircuit`: the query "training"
contains "rain" as a substring, so it is treated as a weather query. -/
theorem weather_substring_witness :
    isSubL "rain".data (lowerL "training".data) = true
    ∧ get_answer envFail "training" [] =
        (WEATHER_RESPONSE,
         [⟨"user", "training"⟩, ⟨"assistant", WEATHER_RESPONSE⟩],
         []) :=
  ⟨by decide,
   (weather_substring_shortcircuit envFail "training" [] (by decide)).trans (by decide)⟩

/-- C1 (amended): when the retrieval step or the completion step raises
(and no short-circuit fired), `get_answer` returns the fixed graceful
degradation message and appends no assistant message — but the user
message appended at the start of the turn stays in the history, so the
history is the prior history plus that user message, not the prior
history unchanged. -/
theorem failed_turn_returns_error_and_keeps_user_message (env : Env)
    (query : String) (hist : List Message)
    (hw : weatherTrigger query = false) (hg : greetingTrigger query = false)
    (hfail :
      env.queryIndex (expand_query_with_synonyms query) = .error ()
      ∨ ∃ docs dists strat ctx,
          env.queryIndex (expand_query_with_synonyms query) = .ok (docs, dists)
          ∧ routeCore query (searchWrap docs dists).1 (searchWrap docs dists).2.1
              (searchWrap docs dists).2.2 = .ok (strat, ctx)
          ∧ env.complete (assembleFor strat query ctx
              (add_message MAX_CONVERSATION_HISTORY hist ⟨"user", query⟩)) = .error ()) :
    (get_answer env query hist).1 = ERROR_RESPONSE
    ∧ (get_answer env query hist).2.1 =
        add_message MAX_CONVERSATION_HISTORY hist ⟨"user", query⟩ := by
  unfold get_answer
  simp only [hw, hg, Bool.false_eq_true, if_false]
  rcases hfail with h | ⟨docs, dists, strat, ctx, h1, h2, h3⟩
  · rw [h]
    exact ⟨rfl, rfl⟩
  · rw [h1]
    simp only
    rw [h2]
    simp only
    rw [h3]
    exact ⟨rfl, rfl⟩

/-- Witness for `failed_turn_returns_error_and_keeps_user_message`: a
failing retrieval on the query "help". -/
theorem failed_turn_witness :
    (get_answer envFail "help" []).1 = ERROR_RESPONSE
    ∧ (get_answer envFail "help" []).2.1 =
        add_message MAX_CONVERSATION_HISTORY [] ⟨"user", "help"⟩ :=
  failed_turn_returns_error_and_keeps_user_message envFail "help" []
    (by decide) (by decide) (Or.inl rfl)

/-- Counterexample to C1 as stated: after a failing retrieval for the
query "help" on an empty history, the history is not unchanged — the
turn's user message is still there, orphaned. -/
theorem failed_turn_history_changed_cx :
    (get_answer envFail "help" []).1 = ERROR_RESPONSE
    ∧ (get_answer envFail "help" []).2.1 = [⟨"user", "help"⟩]
    ∧ (get_answer envFail "help" []).2.1 ≠ ([] : List Message) := by decide

/-! ## Routing lemmas -/

/-- The seed of a left `max` fold bounds the fold result from below. -/
theorem foldl_max_init (xs : List Rat) (x : Rat) : x ≤ xs.foldl max x := by
  induction xs generalizing x with
  | nil => exact le_refl x
  | cons y ys ih => exact le_trans (le_max_left x y) (ih (max x y))

/-- Every member of a list bounds a left `max` fold over it from below. -/
theorem foldl_max_mem (xs : List Rat) (x s : Rat) (h : s ∈ xs) :
    s ≤ xs.foldl max x := by
  induction xs generalizing x with
  | nil => cases h
  | cons y ys ih =>
    rcases List.mem_cons.mp h with h | h
    · subst h
      exact le_trans (le_max_right x s) (foldl_max_init ys (max x s))
    · exact ih (max x y) h

/-- The bucketing loop is the triple of order-preserving filters by the
two cut points. -/
theorem bucketize_eq_filter (l : List (String × Rat)) :
    bucketize l =
      ((l.filter (fun p => highCut ≤ p.2)).map Prod.fst,
       (l.filter (fun p => ¬ highCut ≤ p.2 ∧ mediumCut ≤ p.2)).map Prod.fst,
       (l.filter (fun p => ¬ highCut ≤ p.2 ∧ ¬ mediumCut ≤ p.2)).map Prod.fst) := by
  induction l with
  | nil => rfl
  | cons p rest ih =>
    obtain ⟨d, s⟩ := p
    by_cases h1 : highCut ≤ s
    · simp only [bucketize, ih, ge_iff_le, if_pos h1, List.filter_cons]
      simp [h1]
    · by_cases h2 : mediumCut ≤ s
      · simp only [bucketize, ih, ge_iff_le, if_neg h1, if_pos h2, List.filter_cons]
        simp [h1, h2]
      · simp only [bucketize, ih, ge_iff_le, if_neg h1, if_neg h2, List.filter_cons]
        simp [h1, h2]

/-- C4: whenever the (non-empty-result) routing step sees at least one
document scoring at or above the HIGH cut point 0.5, it selects the
HighConfidence strategy and the context is exactly the documents scoring
at or above 0.5, in their original rank order, regardless of the
lower-scoring documents. -/
theorem routing_high_confidence (query : String) (docs : List String)
    (scores : List Rat) (h : ∃ p ∈ docs.zip scores, highCut ≤ p.2) :
    routeCore query docs scores true =
      .ok (.highConfidence,
           ((docs.zip scores).filter (fun p => highCut ≤ p.2)).map Prod.fst) := by
  obtain ⟨p, hp, hscore⟩ := h
  have hs : p.2 ∈ scores := (List.of_mem_zip hp).2
  have hmem : p ∈ (docs.zip scores).filter (fun p => highCut ≤ p.2) :=
    List.mem_filter.mpr ⟨hp, by simpa using hscore⟩
  have hne : ((docs.zip scores).filter (fun p => highCut ≤ p.2)).map Prod.fst ≠ [] :=
    List.ne_nil_of_mem (List.mem_map.mpr ⟨p, hmem, rfl⟩)
  cases scores with
  | nil => cases hs
  | cons s0 rest =>
    have hple : p.2 ≤ rest.foldl max s0 := by
      rcases List.mem_cons.mp hs with h | h
      · exact h ▸ foldl_max_init rest s0
      · exact foldl_max_mem rest s0 p.2 h
    have hmax : minimumThreshold ≤ rest.foldl max s0 :=
      le_trans (by decide : minimumThreshold ≤ highCut) (le_trans hscore hple)
    simp only [routeCore, pyMax, ge_iff_le, if_true]
    rw [if_pos hmax, bucketize_eq_filter]
    simp only [ne_eq]
    rw [if_pos (by simpa using hne)]

/-- Witness for `routing_high_confidence`: scores [0.6, 0.25] give
HighConfidence with the 0.6-document only. -/
theorem routing_high_confidence_witness :
    routeCore "x" ["A", "B"] [mkRat 3 5, mkRat 1 4] true =
      .ok (.highConfidence,
           ((["A", "B"].zip [mkRat 3 5, mkRat 1 4]).filter
             (fun p => highCut ≤ p.2)).map Prod.fst)
    ∧ ((["A", "B"].zip [mkRat 3 5, mkRat 1 4]).filter
        (fun p => highCut ≤ p.2)).map Prod.fst = ["A"] :=
  ⟨routing_high_confidence "x" ["A", "B"] [mkRat 3 5, mkRat 1 4]
     ⟨("A", mkRat 3 5), by decide, by decide⟩,
   by decide⟩

/-- C5: if the index returns no documents, or the maximum returned score
is below the minimum threshold 0.2, routing selects the Fallback
strategy with an empty context, and its domain-relatedness flag is the
pure case-insensitive keyword-containment test on the query text. -/
theorem routing_fallback_empty_context (query : String) (docs : List String)
    (dists : List Rat)
    (h : docs = [] ∨ ∃ m, pyMax dists = .ok m ∧ m < minimumThreshold) :
    routeCore query (searchWrap docs dists).1 (searchWrap docs dists).2.1
        (searchWrap docs dists).2.2
      = .ok (.fallback (is_it_related query), [])
    ∧ is_it_related query
      = IT_KEYWORDS.any (fun k => isSubL k.data (lowerL query.data)) := by
  refine ⟨?_, rfl⟩
  by_cases hd : docs = []
  · subst hd
    simp [searchWrap, routeCore]
  · have hw : searchWrap docs dists = (docs, dists, true) := by simp [searchWrap, hd]
    rw [hw]
    rcases h with h | ⟨m, hm, hlt⟩
    · exact absurd h hd
    · simp only [routeCore, if_true]
      rw [hm]
      simp only
      rw [if_neg (by simp only [ge_iff_le]; exact not_le.mpr hlt)]

/-- Witness for `routing_fallback_empty_context`: an empty index result. -/
theorem routing_fallback_witness :
    routeCore "q1" (searchWrap [] []).1 (searchWrap [] []).2.1 (searchWrap [] []).2.2
      = .ok (.fallback (is_it_related "q1"), [])
    ∧ is_it_related "q1"
      = IT_KEYWORDS.any (fun k => isSubL k.data (lowerL "q1".data)) :=
  routing_fallback_empty_context "q1" [] [] (Or.inl rfl)

/-! ## Prompt assembly -/

/-- The fixed system template of each strategy tier
(`prompt_templates.py` lines 10-64). -/
def systemTemplateOf : PromptStrategy → String
  | .highConfidence => HIGH_CONFIDENCE_PROMPT
  | .mediumConfidence => MEDIUM_CONFIDENCE_PROMPT
  | .lowConfidence _ => LOW_CONFIDENCE_PROMPT
  | .fallback _ => FALLBACK_SYSTEM_PROMPT

/-- The instruction text appended after the context block in the second
system message of each non-fallback strategy. -/
def contextInstructionOf : PromptStrategy → String
  | .highConfidence => "\n\nUse this information to answer the user\x27s question."
  | .mediumConfidence => "\n\nUse this information as a starting point, but you may expand with relevant IT knowledge."
  | .lowConfidence true => "\n\nThe above context may be only partially relevant. Use it where applicable, but supplement with general IT knowledge where needed."
  | .lowConfidence false => "\n\nThe above context may have limited relevance. Focus on providing a generally helpful response."
  | .fallback _ => ""

/-- The history window of the prompt creators is the plain last-N
suffix. -/
theorem lastWindow_eq_drop (ch : List Message) :
    lastWindow ch = ch.drop (ch.length - MAX_CONVERSATION_HISTORY) := by
  unfold lastWindow
  by_cases h : ch.isEmpty
  · rw [if_pos h]
    rw [List.isEmpty_iff] at h
    subst h
    rfl
  · rw [if_neg h]

/-- The numbering loop equals numbering by zipping with the integer
range starting at `i`. -/
theorem numberDocs_eq_zipWith (ds : List String) : ∀ i : Nat,
    numberDocs i ds =
      List.zipWith (fun i d => "DOCUMENT " ++ toString i ++ ":\n" ++ pyStrip d)
        (List.range' i ds.length) ds := by
  induction ds with
  | nil => intro i; rfl
  | cons d ds ih =>
    intro i
    simp only [numberDocs, List.length_cons, List.range', List.zipWith]
    rw [ih (i + 1)]

/-- C8 (amended): for every non-Fallback strategy the assembled sequence
is exactly one system message with the strategy template, one system
message containing the context block followed by the strategy's fixed
instruction, then the last `MAX_CONVERSATION_HISTORY` history messages
in order, then one final user message with the raw query; the context
block numbers documents from 1 as `DOCUMENT <n>:` blocks separated by
blank lines, except that the fixed no-documentation sentence is
substituted when the document list is empty — or when it is exactly the
single retrieval sentinel "No relevant configs found.". -/
theorem assembler_shape (strat : PromptStrategy) (query : String)
    (docs : List String) (hist : List Message)
    (h : ∀ b, strat ≠ .fallback b) :
    assembleFor strat query docs hist =
      ⟨"system", systemTemplateOf strat⟩ ::
      ⟨"system", "CONTEXT:\n" ++ format_context_from_docs docs ++ contextInstructionOf strat⟩ ::
      (hist.drop (hist.length - MAX_CONVERSATION_HISTORY) ++ [⟨"user", query⟩])
    ∧ (docs ≠ [] → docs ≠ [NO_CONFIGS_SENTINEL] →
        format_context_from_docs docs =
          String.intercalate "\n\n"
            (List.zipWith (fun i d => "DOCUMENT " ++ toString i ++ ":\n" ++ pyStrip d)
              (List.range' 1 docs.length) docs))
    ∧ (docs = [] → format_context_from_docs docs = NO_DOC_SENTENCE) := by
  refine ⟨?_, ?_, ?_⟩
  · cases strat with
    | highConfidence =>
      simp only [assembleFor, create_high_confidence_prompt, systemTemplateOf,
        contextInstructionOf, lastWindow_eq_drop]
    | mediumConfidence =>
      simp only [assembleFor, create_medium_confidence_prompt, systemTemplateOf,
        contextInstructionOf, lastWindow_eq_drop]
    | lowConfidence b =>
      cases b <;>
        simp only [assembleFor, create_low_confidence_prompt, systemTemplateOf,
          contextInstructionOf, lastWindow_eq_drop, if_true, if_false, Bool.false_eq_true]
    | fallback b => exact absurd rfl (h b)
  · intro h1 h2
    unfold format_context_from_docs
    rw [if_neg]
    · rw [numberDocs_eq_zipWith docs 1]
    · rintro (hc | ⟨hl, hh⟩)
      · exact h1 hc
      · cases docs with
        | nil => exact h1 rfl
        | cons d rest =>
          have hrest : rest = [] := by
            simp only [List.length_cons] at hl
            exact List.length_eq_zero.mp (by omega)
          subst hrest
          simp only [List.head?_cons, Option.some.injEq] at hh
          exact h2 (by rw [hh])
  · intro h1
    subst h1
    rfl

/-- Witness for `assembler_shape` at the HighConfidence strategy with a
one-document context and a one-message history. -/
theorem assembler_shape_witness :
    assembleFor .highConfidence "q" ["d1"] [⟨"user", "u"⟩] =
      ⟨"system", systemTemplateOf .highConfidence⟩ ::
      ⟨"system", "CONTEXT:\n" ++ format_context_from_docs ["d1"] ++ contextInstructionOf .highConfidence⟩ ::
      (([⟨"user", "u"⟩] : List Message).drop
        (([⟨"user", "u"⟩] : List Message).length - MAX_CONVERSATION_HISTORY) ++ [⟨"user", "q"⟩])
    ∧ ((["d1"] : List String) ≠ [] → (["d1"] : List String) ≠ [NO_CONFIGS_SENTINEL] →
        format_context_from_docs ["d1"] =
          String.intercalate "\n\n"
            (List.zipWith (fun i d => "DOCUMENT " ++ toString i ++ ":\n" ++ pyStrip d)
              (List.range' 1 (["d1"] : List String).length) ["d1"]))
    ∧ ((["d1"] : List String) = [] → format_context_from_docs ["d1"] = NO_DOC_SENTENCE) :=
  assembler_shape .highConfidence "q" ["d1"] [⟨"user", "u"⟩] (by decide)

/-- Counterexample to C8 as stated: the non-empty document list
consisting of exactly the retrieval sentinel is formatted as the
no-documentation sentence, not as a numbered DOCUMENT block. -/
theorem assembler_sentinel_cx :
    (["No relevant configs found."] : List String) ≠ []
    ∧ format_context_from_docs ["No relevant configs found."] = NO_DOC_SENTENCE
    ∧ format_context_from_docs ["No relevant configs found."] ≠
        String.intercalate "\n\n"
          (List.zipWith (fun i d => "DOCUMENT " ++ toString i ++ ":\n" ++ pyStrip d)
            (List.range' 1 1) ["No relevant configs found."]) := by decide

/-! ## Query-expansion lemmas -/

/-- Splitting distributes over a single-space separator. -/
theorem pySplitGo_append_sep (a b : List Char) : ∀ cur : List Char,
    pySplitGo cur (a ++ ' ' :: b) = pySplitGo cur a ++ pySplitGo [] b := by
  have hws : wsB ' ' = true := by decide
  induction a with
  | nil =>
    intro cur
    show pySplitGo cur (' ' :: b) = pySplitGo cur [] ++ pySplitGo [] b
    by_cases hcur : cur = []
    · simp [pySplitGo, hws, hcur]
    · simp [pySplitGo, hws, hcur]
  | cons c a' ih =>
    intro cur
    by_cases hc : wsB c
    · by_cases hcur : cur = []
      · simp only [List.cons_append, pySplitGo, hc, if_true, hcur, if_pos]
        exact ih []
      · simp only [List.cons_append, pySplitGo, hc, if_true, hcur, if_neg, ite_false,
          List.append_eq]
        rw [ih []]
    · simp only [List.cons_append, pySplitGo, hc, Bool.false_eq_true, if_false]
      exact ih (cur ++ [c])

/-- Every chunk produced by splitting is non-empty and whitespace-free
(provided the pending word is whitespace-free). -/
theorem pySplitGo_chunks (cs : List Char) : ∀ cur : List Char,
    (∀ c ∈ cur, wsB c = false) →
    ∀ w ∈ pySplitGo cur cs, w ≠ [] ∧ ∀ c ∈ w, wsB c = false := by
  induction cs with
  | nil =>
    intro cur hcur w hw
    by_cases hc : cur = []
    · simp [pySplitGo, hc] at hw
    · simp only [pySplitGo, hc, if_neg, ite_false, List.mem_singleton] at hw
      subst hw
      exact ⟨hc, hcur⟩
  | cons c cs' ih =>
    intro cur hcur w hw
    by_cases hc : wsB c
    · simp only [pySplitGo, hc, if_true] at hw
      by_cases hcurnil : cur = []
      · rw [if_pos hcurnil] at hw
        exact ih [] (by intro x hx; cases hx) w hw
      · rw [if_neg hcurnil] at hw
        rcases List.mem_cons.mp hw with h | h
        · subst h; exact ⟨hcurnil, hcur⟩
        · exact ih [] (by intro x hx; cases hx) w h
    · simp only [pySplitGo, hc, Bool.false_eq_true, if_false] at hw
      refine ih (cur ++ [c]) ?_ w hw
      intro x hx
      rcases List.mem_append.mp hx with h | h
      · exact hcur x h
      · rw [List.mem_singleton.mp h]
        simpa using hc

/-- Splitting a single whitespace-free word yields that word (prefixed by
the pending word). -/
theorem pySplitGo_all_word (w : List Char) : ∀ cur : List Char,
    (∀ c ∈ w, wsB c = false) →
    pySplitGo cur w = if cur ++ w = [] then [] else [cur ++ w] := by
  induction w with
  | nil =>
    intro cur _
    simp [pySplitGo]
  | cons c w' ih =>
    intro cur hw
    have hc : wsB c = false := hw c (List.mem_cons_self c w')
    simp only [pySplitGo, hc, Bool.false_eq_true, if_false]
    rw [ih (cur ++ [c]) (fun x hx => hw x (List.mem_cons_of_mem c hx))]
    have h1 : cur ++ [c] ++ w' ≠ [] := by simp
    have h2 : cur ++ c :: w' ≠ [] := by simp
    rw [if_neg h1, if_neg h2]
    simp

/-- Every character of a chunk comes from the pending word or the
input. -/
theorem pySplitGo_chars (cs : List Char) : ∀ cur w c,
    w ∈ pySplitGo cur cs → c ∈ w → c ∈ cur ∨ c ∈ cs := by
  induction cs with
  | nil =>
    intro cur w c hw hc
    by_cases h : cur = []
    · simp [pySplitGo, h] at hw
    · simp only [pySplitGo, h, if_neg, ite_false, List.mem_singleton] at hw
      subst hw
      exact Or.inl hc
  | cons d cs' ih =>
    intro cur w c hw hc
    by_cases hd : wsB d
    · simp only [pySplitGo, hd, if_true] at hw
      by_cases hcur : cur = []
      · rw [if_pos hcur] at hw
        rcases ih [] w c hw hc with h | h
        · cases h
        · exact Or.inr (List.mem_cons_of_mem d h)
      · rw [if_neg hcur] at hw
        rcases List.mem_cons.mp hw with h | h
        · subst h; exact Or.inl hc
        · rcases ih [] w c h hc with h2 | h2
          · cases h2
          · exact Or.inr (List.mem_cons_of_mem d h2)
    · simp only [pySplitGo, hd, Bool.false_eq_true, if_false] at hw
      rcases ih (cur ++ [d]) w c hw hc with h | h
      · rcases List.mem_append.mp h with h2 | h2
        · exact Or.inl h2
        · exact Or.inr (by rw [List.mem_singleton.mp h2]; exact List.mem_cons_self d cs')
      · exact Or.inr (List.mem_cons_of_mem d h)

/-- Splitting the space-join of non-empty whitespace-free words recovers
the words. -/
theorem pySplitL_joinSp (xs : List (List Char))
    (hx : ∀ x ∈ xs, x ≠ [] ∧ ∀ c ∈ x, wsB c = false) :
    pySplitL (joinSp xs) = xs := by
  induction xs with
  | nil => rfl
  | cons x ys ih =>
    cases ys with
    | nil =>
      obtain ⟨hne, hfree⟩ := hx x (List.mem_singleton_self x)
      show pySplitGo [] (joinSp [x]) = [x]
      rw [show joinSp [x] = x from rfl, pySplitGo_all_word x [] hfree]
      simp [hne]
    | cons y ys' =>
      obtain ⟨hne, hfree⟩ := hx x (List.mem_cons_self x (y :: ys'))
      show pySplitGo [] (x ++ ' ' :: joinSp (y :: ys')) = x :: y :: ys'
      rw [pySplitGo_append_sep x (joinSp (y :: ys')) []]
      rw [show pySplitGo [] x = pySplitL x from rfl,
          show pySplitGo [] (joinSp (y :: ys')) = pySplitL (joinSp (y :: ys')) from rfl]
      rw [show pySplitL x = [x] by
            rw [pySplitL, pySplitGo_all_word x [] hfree]; simp [hne]]
      rw [ih (fun z hz => hx z (List.mem_cons_of_mem x hz))]
      rfl

/-- A non-empty whitespace-free member of a word list is a token of the
space-join of the list, whatever the other elements look like. -/
theorem mem_pySplitL_joinSp (xs : List (List Char)) (w : List Char)
    (hne : w ≠ []) (hfree : ∀ c ∈ w, wsB c = false) (hmem : w ∈ xs) :
    w ∈ pySplitL (joinSp xs) := by
  induction xs with
  | nil => cases hmem
  | cons x ys ih =>
    cases ys with
    | nil =>
      obtain rfl := List.mem_singleton.mp hmem
      show w ∈ pySplitGo [] (joinSp [w])
      rw [show joinSp [w] = w from rfl, pySplitGo_all_word w [] hfree]
      simp [hne]
    | cons y ys' =>
      show w ∈ pySplitGo [] (x ++ ' ' :: joinSp (y :: ys'))
      rw [pySplitGo_append_sep x (joinSp (y :: ys')) []]
      rcases List.mem_cons.mp hmem with h | h
      · subst h
        refine List.mem_append_left _ ?_
        rw [pySplitGo_all_word w [] hfree]
        simp [hne]
      · exact List.mem_append_right _ (ih h)

/-- Every character of a space-join is a space or comes from one of the
words. -/
theorem mem_joinSp (xs : List (List Char)) (c : Char) (h : c ∈ joinSp xs) :
    c = ' ' ∨ ∃ x ∈ xs, c ∈ x := by
  induction xs with
  | nil => cases h
  | cons x ys ih =>
    cases ys with
    | nil => exact Or.inr ⟨x, List.mem_singleton_self x, h⟩
    | cons y ys' =>
      rw [show joinSp (x :: y :: ys') = x ++ ' ' :: joinSp (y :: ys') from rfl] at h
      rcases List.mem_append.mp h with h | h
      · exact Or.inr ⟨x, List.mem_cons_self x (y :: ys'), h⟩
      · rcases List.mem_cons.mp h with h | h
        · exact Or.inl h
        · rcases ih h with h2 | ⟨z, hz, hcz⟩
          · exact Or.inl h2
          · exact Or.inr ⟨z, List.mem_cons_of_mem x hz, hcz⟩

/-- Membership in the de-duplication worker output. -/
theorem mem_dedupeGo (l : List (List Char)) : ∀ seen x,
    x ∈ dedupeGo seen l ↔ x ∈ l ∧ x ∉ seen := by
  induction l with
  | nil => intro seen x; simp [dedupeGo]
  | cons y ys ih =>
    intro seen x
    by_cases hy : y ∈ seen
    · rw [show dedupeGo seen (y :: ys) = dedupeGo seen ys by simp [dedupeGo, hy]]
      rw [ih seen x]
      constructor
      · rintro ⟨h1, h2⟩
        exact ⟨List.mem_cons_of_mem y h1, h2⟩
      · rintro ⟨h1, h2⟩
        rcases List.mem_cons.mp h1 with h | h
        · subst h; exact absurd hy h2
        · exact ⟨h, h2⟩
    · rw [show dedupeGo seen (y :: ys) = y :: dedupeGo (y :: seen) ys by
            simp [dedupeGo, hy]]
      constructor
      · intro h
        rcases List.mem_cons.mp h with h | h
        · subst h; exact ⟨List.mem_cons_self x ys, hy⟩
        · obtain ⟨h1, h2⟩ := (ih (y :: seen) x).mp h
          exact ⟨List.mem_cons_of_mem y h1,
                 fun hc => h2 (List.mem_cons_of_mem y hc)⟩
      · rintro ⟨h1, h2⟩
        rcases List.mem_cons.mp h1 with h | h
        · subst h; exact List.mem_cons_self x _
        · by_cases hxy : x = y
          · subst hxy; exact List.mem_cons_self x _
          · exact List.mem_cons_of_mem y ((ih (y :: seen) x).mpr
              ⟨h, fun hc => (List.mem_cons.mp hc).elim hxy h2⟩)

/-- The de-duplication worker output has no duplicates. -/
theorem nodup_dedupeGo (l : List (List Char)) : ∀ seen,
    (dedupeGo seen l).Nodup := by
  induction l with
  | nil => intro seen; exact List.nodup_nil
  | cons y ys ih =>
    intro seen
    by_cases hy : y ∈ seen
    · rw [show dedupeGo seen (y :: ys) = dedupeGo seen ys by simp [dedupeGo, hy]]
      exact ih seen
    · rw [show dedupeGo seen (y :: ys) = y :: dedupeGo (y :: seen) ys by
            simp [dedupeGo, hy]]
      refine List.nodup_cons.mpr ⟨?_, ih (y :: seen)⟩
      intro hc
      exact ((mem_dedupeGo ys (y :: seen) y).mp hc).2 (List.mem_cons_self y seen)

/-- De-duplicating an already duplicate-free list that avoids `seen` is
the identity. -/
theorem dedupeGo_eq_self (l : List (List Char)) : ∀ seen,
    l.Nodup → (∀ x ∈ l, x ∉ seen) → dedupeGo seen l = l := by
  induction l with
  | nil => intro seen _ _; rfl
  | cons y ys ih =>
    intro seen hnd hav
    have hy : y ∉ seen := hav y (List.mem_cons_self y ys)
    rw [show dedupeGo seen (y :: ys) = y :: dedupeGo (y :: seen) ys by
          simp [dedupeGo, hy]]
    obtain ⟨hyys, hnd'⟩ := List.nodup_cons.mp hnd
    rw [ih (y :: seen) hnd' ?_]
    intro x hx
    intro hc
    rcases List.mem_cons.mp hc with h | h
    · subst h; exact hyys hx
    · exact hav x (List.mem_cons_of_mem y hx) h

/-- De-duplication drops a suffix that is entirely covered by the prefix
and the seen set. -/
theorem dedupeGo_append_absorb (xs : List (List Char)) : ∀ (ys : List (List Char)) seen,
    (∀ y ∈ ys, y ∈ xs ++ seen) → dedupeGo seen (xs ++ ys) = dedupeGo seen xs := by
  induction xs with
  | nil =>
    intro ys seen hsub
    simp only [List.nil_append] at hsub ⊢
    show dedupeGo seen ys = dedupeGo seen []
    induction ys with
    | nil => rfl
    | cons y ys' ihy =>
      have hy : y ∈ seen := hsub y (List.mem_cons_self y ys')
      rw [show dedupeGo seen (y :: ys') = dedupeGo seen ys' by simp [dedupeGo, hy]]
      exact ihy (fun z hz => hsub z (List.mem_cons_of_mem y hz))
  | cons x xs' ih =>
    intro ys seen hsub
    by_cases hx : x ∈ seen
    · rw [show (x :: xs') ++ ys = x :: (xs' ++ ys) from rfl]
      rw [show dedupeGo seen (x :: (xs' ++ ys)) = dedupeGo seen (xs' ++ ys) by
            simp [dedupeGo, hx]]
      rw [show dedupeGo seen (x :: xs') = dedupeGo seen xs' by simp [dedupeGo, hx]]
      refine ih ys seen ?_
      intro y hy
      rcases List.mem_append.mp (hsub y hy) with h | h
      · rcases List.mem_cons.mp h with h2 | h2
        · subst h2; exact List.mem_append_right _ hx
        · exact List.mem_append_left _ h2
      · exact List.mem_append_right _ h
    · rw [show (x :: xs') ++ ys = x :: (xs' ++ ys) from rfl]
      rw [show dedupeGo seen (x :: (xs' ++ ys)) = x :: dedupeGo (x :: seen) (xs' ++ ys) by
            simp [dedupeGo, hx]]
      rw [show dedupeGo seen (x :: xs') = x :: dedupeGo (x :: seen) xs' by
            simp [dedupeGo, hx]]
      rw [ih ys (x :: seen) ?_]
      intro y hy
      rcases List.mem_append.mp (hsub y hy) with h | h
      · rcases List.mem_cons.mp h with h2 | h2
        · subst h2; exact List.mem_append_right _ (List.mem_cons_self y seen)
        · exact List.mem_append_left _ h2
      · exact List.mem_append_right _ (List.mem_cons_of_mem x h)

/-- ASCII lower-casing is idempotent character-wise. -/
theorem char_toLower_toLower (c : Char) : c.toLower.toLower = c.toLower := by
  unfold Char.toLower
  by_cases h : c.toNat ≥ 65 ∧ c.toNat ≤ 90
  · rw [if_pos h]
    have hv : (c.toNat + 32).isValidChar := Or.inl (by omega)
    have ht : (Char.ofNat (c.toNat + 32)).toNat = c.toNat + 32 := by
      rw [Char.ofNat, dif_pos hv]
      rfl
    rw [if_neg]
    rw [ht]
    omega
  · rw [if_neg h, if_neg h]

/-- Lower-casing a list whose characters are all fixed by `toLower` is
the identity. -/
theorem lowerL_eq_self (cs : List Char) (h : ∀ c ∈ cs, c.toLower = c) :
    lowerL cs = cs := by
  induction cs with
  | nil => rfl
  | cons c cs' ih =>
    show c.toLower :: lowerL cs' = c :: cs'
    rw [h c (List.mem_cons_self c cs'), ih (fun d hd => h d (List.mem_cons_of_mem c hd))]

/-- Every synonym string of the table is non-empty and entirely
lower-case (fixed by `toLower`). -/
theorem synMapL_values_good :
    ∀ p ∈ synMapL, ∀ s ∈ p.2, s ≠ [] ∧ ∀ c ∈ s, c.toLower = c := by decide

/-- A result of a successful table lookup is one of the table's synonym
strings. -/
theorem mem_lookupIn (table : List (List Char × List (List Char))) : ∀ w s,
    s ∈ lookupIn table w → ∃ p ∈ table, s ∈ p.2 := by
  induction table with
  | nil => intro w s h; cases h
  | cons e rest ih =>
    intro w s h
    obtain ⟨k, ss⟩ := e
    by_cases hk : w = k
    · rw [show lookupIn ((k, ss) :: rest) w = ss by simp [lookupIn, hk]] at h
      exact ⟨(k, ss), List.mem_cons_self _ rest, h⟩
    · rw [show lookupIn ((k, ss) :: rest) w = lookupIn rest w by simp [lookupIn, hk]] at h
      obtain ⟨p, hp, hs⟩ := ih w s h
      exact ⟨p, List.mem_cons_of_mem _ hp, hs⟩

/-- Membership in the appended-synonyms list. -/
theorem mem_synExt (words : List (List Char)) : ∀ s,
    s ∈ synExt words ↔ ∃ w ∈ words, s ∈ lookupIn synMapL (stripPunct w) := by
  induction words with
  | nil => intro s; simp [synExt]
  | cons w ws ih =>
    intro s
    show s ∈ lookupIn synMapL (stripPunct w) ++ synExt ws ↔ _
    rw [List.mem_append]
    constructor
    · rintro (h | h)
      · exact ⟨w, List.mem_cons_self w ws, h⟩
      · obtain ⟨w', hw', hs⟩ := (ih s).mp h
        exact ⟨w', List.mem_cons_of_mem w hw', hs⟩
    · rintro ⟨w', hw', hs⟩
      rcases List.mem_cons.mp hw' with h | h
      · subst h; exact Or.inl hs
      · exact Or.inr ((ih s).mpr ⟨w', h, hs⟩)

/-- C7 (amended): query expansion is idempotent under the side condition
read on cleaned tokens: if no token of `expand(q)` has a
punctuation-stripped form that is a mapped synonym key with a synonym
not already present among the tokens of `expand(q)`, then
`expand(expand(q)) = expand(q)`. -/
theorem expand_idempotent_on_clean_tokens (q : String)
    (hside : ∀ t ∈ pySplitL (expand_query_with_synonyms q).data,
      ∀ s ∈ lookupIn synMapL (stripPunct t),
        s ∈ pySplitL (expand_query_with_synonyms q).data) :
    expand_query_with_synonyms (expand_query_with_synonyms q)
      = expand_query_with_synonyms q := by
  have hWgood : ∀ w ∈ queryWords q, w ≠ [] ∧ ∀ c ∈ w, wsB c = false :=
    fun w hw => pySplitGo_chunks (lowerL q.data) [] (by intro x hx; cases hx) w hw
  have htokgood : ∀ t ∈ pySplitL (expand_query_with_synonyms q).data,
      t ≠ [] ∧ ∀ c ∈ t, wsB c = false :=
    fun t ht =>
      pySplitGo_chunks (expand_query_with_synonyms q).data [] (by intro x hx; cases hx) t ht
  have hmemD : ∀ w ∈ queryWords q,
      w ∈ dedupeFirst (queryWords q ++ synExt (queryWords q)) := by
    intro w hw
    exact (mem_dedupeGo _ [] w).mpr
      ⟨List.mem_append_left _ hw, by intro hc; cases hc⟩
  have hWtok : ∀ w ∈ queryWords q,
      w ∈ pySplitL (expand_query_with_synonyms q).data := by
    intro w hw
    obtain ⟨hne, hfree⟩ := hWgood w hw
    exact mem_pySplitL_joinSp _ w hne hfree (hmemD w hw)
  have hDgood : ∀ x ∈ dedupeFirst (queryWords q ++ synExt (queryWords q)),
      x ≠ [] ∧ ∀ c ∈ x, wsB c = false := by
    intro x hx
    have hxL : x ∈ queryWords q ++ synExt (queryWords q) :=
      ((mem_dedupeGo _ [] x).mp hx).1
    rcases List.mem_append.mp hxL with h | h
    · exact hWgood x h
    · obtain ⟨w, hw, hlook⟩ := (mem_synExt (queryWords q) x).mp h
      exact htokgood x (hside w (hWtok w hw) x hlook)
  have htokeq : pySplitL (expand_query_with_synonyms q).data
      = dedupeFirst (queryWords q ++ synExt (queryWords q)) :=
    pySplitL_joinSp _ hDgood
  have hEfix : ∀ c ∈ (expand_query_with_synonyms q).data, c.toLower = c := by
    intro c hc
    have hc' : c ∈ joinSp (dedupeFirst (queryWords q ++ synExt (queryWords q))) := hc
    rcases mem_joinSp _ c hc' with h | ⟨x, hx, hcx⟩
    · subst h; decide
    · have hxL : x ∈ queryWords q ++ synExt (queryWords q) :=
        ((mem_dedupeGo _ [] x).mp hx).1
      rcases List.mem_append.mp hxL with h | h
      · have hcin : c ∈ lowerL q.data := by
          rcases pySplitGo_chars (lowerL q.data) [] x c h hcx with h2 | h2
          · cases h2
          · exact h2
        obtain ⟨d, _, hd⟩ := List.mem_map.mp hcin
        rw [← hd]
        exact char_toLower_toLower d
      · obtain ⟨w, hw, hlook⟩ := (mem_synExt (queryWords q) x).mp h
        obtain ⟨p, hp, hs⟩ := mem_lookupIn synMapL (stripPunct w) x hlook
        exact (synMapL_values_good p hp x hs).2 c hcx
  have hW2 : queryWords (expand_query_with_synonyms q)
      = dedupeFirst (queryWords q ++ synExt (queryWords q)) := by
    show pySplitL (lowerL (expand_query_with_synonyms q).data) = _
    rw [lowerL_eq_self _ hEfix]
    exact htokeq
  have hsyn2 : ∀ s ∈ synExt (dedupeFirst (queryWords q ++ synExt (queryWords q))),
      s ∈ dedupeFirst (queryWords q ++ synExt (queryWords q)) := by
    intro s hs
    obtain ⟨t, ht, hlook⟩ := (mem_synExt _ s).mp hs
    have ht' : t ∈ pySplitL (expand_query_with_synonyms q).data := by
      rw [htokeq]; exact ht
    have hs' := hside t ht' s hlook
    rw [htokeq] at hs'
    exact hs'
  have habs : dedupeFirst (dedupeFirst (queryWords q ++ synExt (queryWords q))
        ++ synExt (dedupeFirst (queryWords q ++ synExt (queryWords q))))
      = dedupeFirst (dedupeFirst (queryWords q ++ synExt (queryWords q))) :=
    dedupeGo_append_absorb _ _ [] (by
      intro y hy
      rw [List.append_nil]
      exact hsyn2 y hy)
  have hself : dedupeFirst (dedupeFirst (queryWords q ++ synExt (queryWords q)))
      = dedupeFirst (queryWords q ++ synExt (queryWords q)) :=
    dedupeGo_eq_self _ [] (nodup_dedupeGo _ []) (by intro x _ hc; cases hc)
  show String.mk (joinSp (dedupeFirst (queryWords (expand_query_with_synonyms q)
        ++ synExt (queryWords (expand_query_with_synonyms q)))))
      = expand_query_with_synonyms q
  rw [hW2, habs, hself]
  rfl

/-- Witness for `expand_idempotent_on_clean_tokens`: a query with no
mapped tokens. -/
theorem expand_idempotent_witness :
    expand_query_with_synonyms (expand_query_with_synonyms "hello there")
      = expand_query_with_synonyms "hello there" :=
  expand_idempotent_on_clean_tokens "hello there" (by decide)

/-- Counterexample to C7 as stated: for the query "login?" no token of
`expand(q)` is itself (literally) a mapped synonym key with a missing
synonym — the only mapped word, "login?", carries its question mark —
yet a second expansion differs from the first: the cleaning step maps
"login?" to the key "login", whose multi-word synonyms are re-appended
and whose duplicated token "in" is collapsed. -/
theorem expand_idempotent_cx :
    (∀ t ∈ pySplitL (expand_query_with_synonyms "login?").data,
      ∀ s ∈ lookupIn synMapL t,
        s ∈ pySplitL (expand_query_with_synonyms "login?").data)
    ∧ expand_query_with_synonyms (expand_query_with_synonyms "login?")
        ≠ expand_query_with_synonyms "login?" := by
  constructor
  · decide
  · decide
